import Mathlib

set_option maxHeartbeats 1000000

/-!
Shallow embedding of the timeline layout module (`src/lib/timeline.ts`) of the
down-roadmap repository, followed by theorems checking the specification's
claims against it.

Modelling conventions:

* A calendar-date string `"YYYY-MM-DD"` (the data contract guarantees all date
  fields are well-formed, zero-padded ISO dates) is represented by its numeric
  fields as an `IsoDate`.  `localeCompare` on two such strings orders them
  exactly like the lexicographic order on the `(y, m, d)` triples, which is how
  the sort comparators are embedded.
* A JavaScript `Date` produced by `utcDate` / `startOfUtcDay` is always a UTC
  midnight, i.e. a whole number of days since the epoch; such dates are
  represented by that day number as an `Int`.  On day-truncated dates
  `Math.round((b - a) / 86400000)` is exact, so `diffDays` is plain
  subtraction of day numbers.
* JavaScript strings are modelled as Lean `String`s (`List Char`), with
  `.length` counting characters; for the basic-multilingual-plane text handled
  here this agrees with JavaScript's UTF-16 unit count.  `toLowerCase` is
  modelled by `Char.toLower` (ASCII case mapping), and the `\s` character
  class of the label regex by ASCII whitespace.
* The wall-clock read `startOfUtcDay(new Date())` is passed in explicitly as
  the day number `today`, capturing "the evaluation instant fixed as a
  parameter".
-/

/-- A well-formed `YYYY-MM-DD` calendar-date string, represented by its
numeric year/month/day fields. -/
structure IsoDate where
  y : Nat
  m : Nat
  d : Nat
deriving DecidableEq

/-- Embeds `utcDate(iso) = new Date(iso + "T00:00:00.000Z")` as the number of
days between the Unix epoch and the given (Common-Era, proleptic-Gregorian)
calendar date, via the standard days-from-civil computation. -/
def utcDate (date : IsoDate) : Int :=
  let yAdj := if date.m ≤ 2 then date.y - 1 else date.y
  let era := yAdj / 400
  let yoe := yAdj % 400
  let mp := (date.m + 9) % 12
  let doy := (153 * mp + 2) / 5 + date.d - 1
  let doe := yoe * 365 + yoe / 4 - yoe / 100 + doy
  ((era * 146097 + doe : Nat) : Int) - 719468

/-- Embeds `diffDays(start, end) = Math.round((end - start) / 86400000)`.  Both
arguments are UTC midnights (day numbers), so the division is exact and the
rounding is the identity. -/
def diffDays (start stop : Int) : Int := stop - start

/-- The literal appended by `clampText`.  In the repository source the bytes
are `C3 A2`, `E2 82 AC`, `C2 A6`: the three characters U+00E2, U+20AC, U+00A6
(a mis-encoded horizontal ellipsis), not the single character U+2026. -/
def ellipsisLiteral : List Char := ['â', '€', '¦']

/-- JavaScript `s.slice(0, e)`: a negative end index counts from the end of
the string, and the result is clamped to `[0, length]`. -/
def jsSliceEnd (s : List Char) (e : Int) : List Char :=
  let stop : Int := if e < 0 then max ((s.length : Int) + e) 0 else min e (s.length : Int)
  s.take stop.toNat

/-- Embeds `clampText` from `src/lib/timeline.ts`. -/
def clampText (input : String) (maxChars : Int) : String :=
  if (input.length : Int) ≤ maxChars then input
  else String.mk (jsSliceEnd input.data (maxChars - 1) ++ ellipsisLiteral)

/-- The `\s` class of the label regex (ASCII whitespace). -/
def isWsChar (c : Char) : Bool := c = ' ' || c = '\t' || c = '\n' || c = '\r'

/-- The `[\d.]` class of the label regex. -/
def isVerChar (c : Char) : Bool := c.isDigit || c = '.'

/-- Matches `(\s+)([\d.]+)([^\d.].*)?$` at the start of `rest`, returning the
whitespace and version groups.  Backtracking is deterministic here: a shorter
`\s+` leaves a whitespace character where `[\d.]+` must start, and a shorter
`[\d.]+` leaves a digit/dot where `[^\d.]` must start, so both quantifiers
take their maximal runs; the optional suffix group then either consumes the
entire remainder (its `.*` cannot cross a newline) or is skipped at the end of
the input. -/
def regexTail (rest : List Char) : Option (List Char × List Char) :=
  let ws := rest.takeWhile isWsChar
  if ws.length = 0 then none else
  let afterWs := rest.drop ws.length
  let ver := afterWs.takeWhile isVerChar
  if ver.length = 0 then none else
  match afterWs.drop ver.length with
  | [] => some (ws, ver)
  | _ :: cs => if cs.all (fun c => c ≠ '\n') then some (ws, ver) else none

/-- Embeds the backtracking search of `/^(.+?)(\s+)([\d.]+)([^\d.].*)?$/`: the
lazy group `(.+?)` (which cannot consume a newline) is grown one character at
a time, shortest first, and the first prefix whose remainder matches the rest
of the pattern wins. -/
def regexScan : List Char → List Char → Option (List Char × List Char × List Char)
  | _, [] => none
  | acc, c :: rest =>
    if c = '\n' then none
    else
      match regexTail rest with
      | some (ws, ver) => some (acc ++ [c], ws, ver)
      | none => regexScan (acc ++ [c]) rest

/-- JavaScript `s.replace(pat, rep)` with a string pattern: replaces the first
occurrence only, returning the string unchanged when the pattern is absent. -/
def replaceFirst (pat rep : List Char) : List Char → List Char
  | [] => if pat.isEmpty then rep else []
  | c :: cs =>
    if pat.isPrefixOf (c :: cs) then rep ++ (c :: cs).drop pat.length
    else c :: replaceFirst pat rep cs

/-- Embeds `compactReleaseLabel` from `src/lib/timeline.ts`. -/
def compactReleaseLabel (label : String) : String :=
  match regexScan [] label.data with
  | some (pre, ws, ver) => String.mk (replaceFirst "Backend".data "BE".data (pre ++ ws ++ ver))
  | none => String.mk (replaceFirst "Backend".data "BE".data label.data)

inductive StageTone where
  | running
  | winner
  | ended
  | neutral
deriving DecidableEq

/-- JavaScript `hay.includes(needle)`: substring containment. -/
def hasSub (needle : List Char) : List Char → Bool
  | [] => needle.isEmpty
  | c :: rest => needle.isPrefixOf (c :: rest) || hasSub needle rest

/-- The lowering `stage.toLowerCase()` as a character list. -/
def lowerStr (s : String) : List Char := s.data.map Char.toLower

/-- Embeds `stageTone` from `src/lib/timeline.ts`. -/
def stageTone (stage : String) : StageTone :=
  let lower := lowerStr stage
  if hasSub "running".data lower || hasSub "active".data lower || hasSub "exploring".data lower then
    StageTone.running
  else if hasSub "winner".data lower || hasSub "rollout".data lower || hasSub "shipped".data lower then
    StageTone.winner
  else if hasSub "ended".data lower || hasSub "stop".data lower || hasSub "backlog".data lower then
    StageTone.ended
  else
    StageTone.neutral

structure ExperimentItem where
  id : String
  name : String
  url : String
  startDate : IsoDate
  endDate : IsoDate
  stage : String
deriving DecidableEq

structure ReleaseItem where
  id : String
  name : String
  url : String
  date : IsoDate
  platform : String
  status : String
deriving DecidableEq

/-- The intersection type adding `row`, `startIndex`, `endIndex` to an experiment record. -/
structure PositionedExperiment extends ExperimentItem where
  row : Nat
  startIndex : Int
  endIndex : Int
deriving DecidableEq

/-- The intersection type adding `lane`, `dayIndex`, `labelEnd` to a release record. -/
structure PositionedRelease extends ReleaseItem where
  lane : Nat
  dayIndex : Int
  labelEnd : Int
deriving DecidableEq

structure TimelineLayout where
  startDate : Int
  endDate : Int
  totalDays : Int
  positionedExperiments : List PositionedExperiment
  positionedReleases : List PositionedRelease
  experimentRows : Nat
  releaseLanes : Nat
  canvasWidth : Int
deriving DecidableEq

def DAY_WIDTH : Nat := 34

/-- JavaScript `Array.prototype.findIndex`, with `-1` mapped to `none`. -/
def findIndex (p : α → Bool) : List α → Option Nat
  | [] => none
  | a :: rest => if p a then some 0 else (findIndex p rest).map (· + 1)

/-- The let-binding `startIndex = Math.max(0, diffDays(startDate, utcDate(item.startDate)))`. -/
def expStartIndex (startDate : Int) (item : ExperimentItem) : Int :=
  max 0 (diffDays startDate (utcDate item.startDate))

/-- The let-binding `endIndex = Math.max(startIndex, diffDays(startDate, utcDate(item.endDate)))`. -/
def expEndIndex (startDate : Int) (item : ExperimentItem) : Int :=
  max (expStartIndex startDate item) (diffDays startDate (utcDate item.endDate))

/-- The experiment loop of `layoutTimeline` (lines 127-141): threads the
mutable `experimentRowEnds` array through the `map`, returning the final
row-end markers and the positioned experiments. -/
def positionExperiments (startDate : Int) :
    List Int → List ExperimentItem → List Int × List PositionedExperiment
  | rowEnds, [] => (rowEnds, [])
  | rowEnds, item :: rest =>
    match findIndex (fun rowEnd => expStartIndex startDate item > rowEnd) rowEnds with
    | some row =>
      let next := positionExperiments startDate (rowEnds.set row (expEndIndex startDate item)) rest
      (next.1, ⟨item, row, expStartIndex startDate item, expEndIndex startDate item⟩ :: next.2)
    | none =>
      let next := positionExperiments startDate (rowEnds ++ [expEndIndex startDate item]) rest
      (next.1, ⟨item, rowEnds.length, expStartIndex startDate item, expEndIndex startDate item⟩ :: next.2)

/-- The clamp `Math.max(92, Math.min(240, label.length * 7 + 44))`. -/
def labelWidthOf (label : String) : Int :=
  max 92 (min 240 ((label.length : Int) * 7 + 44))

/-- The let-binding `dayIndex = Math.max(0, diffDays(startDate, utcDate(item.date)))`. -/
def relDayIndex (startDate : Int) (item : ReleaseItem) : Int :=
  max 0 (diffDays startDate (utcDate item.date))

/-- The let-binding `x = dayIndex * DAY_WIDTH + Math.floor(DAY_WIDTH / 2)`. -/
def relAnchorX (startDate : Int) (item : ReleaseItem) : Int :=
  relDayIndex startDate item * (DAY_WIDTH : Int) + ((DAY_WIDTH / 2 : Nat) : Int)

/-- The let-binding `labelWidth` for a release's compacted label. -/
def relLabelWidth (item : ReleaseItem) : Int :=
  labelWidthOf (compactReleaseLabel item.name)

/-- The release loop of `layoutTimeline` (lines 143-162): threads the mutable
`laneOccupancy` array and the running `maxReleaseLabelEnd` through the `map`. -/
def positionReleases (startDate : Int) :
    List Int → Int → List ReleaseItem → List Int × Int × List PositionedRelease
  | laneOcc, maxEnd, [] => (laneOcc, maxEnd, [])
  | laneOcc, maxEnd, item :: rest =>
    match findIndex (fun occupiedUntil => relAnchorX startDate item > occupiedUntil + 12) laneOcc with
    | some lane =>
      let next := positionReleases startDate
        (laneOcc.set lane (relAnchorX startDate item + relLabelWidth item))
        (max maxEnd (relAnchorX startDate item + relLabelWidth item + 20)) rest
      (next.1, next.2.1,
        ⟨item, lane, relDayIndex startDate item, relAnchorX startDate item + relLabelWidth item⟩ :: next.2.2)
    | none =>
      let next := positionReleases startDate
        (laneOcc ++ [relAnchorX startDate item + relLabelWidth item])
        (max maxEnd (relAnchorX startDate item + relLabelWidth item + 20)) rest
      (next.1, next.2.1,
        ⟨item, laneOcc.length, relDayIndex startDate item, relAnchorX startDate item + relLabelWidth item⟩ :: next.2.2)

/-- The order `localeCompare` induces on well-formed `YYYY-MM-DD` strings:
lexicographic on the numeric fields. -/
def isoLe (a b : IsoDate) : Prop :=
  a.y < b.y ∨ (a.y = b.y ∧ (a.m < b.m ∨ (a.m = b.m ∧ a.d ≤ b.d)))

instance : DecidableRel isoLe := fun a b => by unfold isoLe; exact inferInstance

/-- Comparator of the experiment sort: `a.startDate.localeCompare(b.startDate)`. -/
def expLe (a b : ExperimentItem) : Prop := isoLe a.startDate b.startDate

instance : DecidableRel expLe := fun a b => by unfold expLe; exact inferInstance

/-- Comparator of the release sort: `a.date.localeCompare(b.date)`. -/
def relLe (a b : ReleaseItem) : Prop := isoLe a.date b.date

instance : DecidableRel relLe := fun a b => by unfold relLe; exact inferInstance

instance : IsTotal ExperimentItem expLe :=
  ⟨fun a b => by unfold expLe isoLe; omega⟩

instance : IsTrans ExperimentItem expLe :=
  ⟨fun a b c => by unfold expLe isoLe; omega⟩

instance : IsTotal ReleaseItem relLe :=
  ⟨fun a b => by unfold relLe isoLe; omega⟩

instance : IsTrans ReleaseItem relLe :=
  ⟨fun a b c => by unfold relLe isoLe; omega⟩

/-- Embeds `layoutTimeline` from `src/lib/timeline.ts`.  The wall-clock read
`startOfUtcDay(new Date())` is the explicit day-number parameter `today`;
`[...xs].sort(cmp)` (a stable sort) is embedded as `List.insertionSort`, which
is stable for the total preorders used here. -/
def layoutTimeline (experiments : List ExperimentItem) (releases : List ReleaseItem)
    (windowStartIso : IsoDate) (today : Int) : TimelineLayout :=
  let startDate := utcDate windowStartIso
  let allEndDates :=
    today :: (experiments.map (fun exp => utcDate exp.endDate) ++
      releases.map (fun rel => utcDate rel.date))
  let endDate := allEndDates.foldl (fun latest candidate => if candidate > latest then candidate else latest) today
  let totalDays := max 1 (diffDays startDate endDate + 1)
  let sortedExperiments := List.insertionSort expLe experiments
  let exppos := positionExperiments startDate [] sortedExperiments
  let sortedReleases := List.insertionSort relLe releases
  let relpos := positionReleases startDate [] (totalDays * (DAY_WIDTH : Int)) sortedReleases
  { startDate := startDate
    endDate := endDate
    totalDays := totalDays
    positionedExperiments := exppos.2
    positionedReleases := relpos.2.2
    experimentRows := max 1 exppos.1.length
    releaseLanes := max 1 relpos.1.length
    canvasWidth := max (totalDays * (DAY_WIDTH : Int)) relpos.2.1 }

/-- Spec-side description of the lane/row scan target: `lane` is the first
index (in lane order) whose occupied-until marker `o` satisfies `x > o + 12`,
or the next fresh index when no existing lane qualifies. -/
def FirstFreeLane (x : Int) (occ : List Int) (lane : Nat) : Prop :=
  (lane < occ.length ∧ occ.getD lane 0 + 12 < x ∧ ∀ j < lane, ¬ (occ.getD j 0 + 12 < x))
  ∨ (lane = occ.length ∧ ∀ j < occ.length, ¬ (occ.getD j 0 + 12 < x))

/-- Writing the chosen lane's occupancy marker: in-place for an existing lane,
appended for a freshly opened one. -/
def updateLane (occ : List Int) (lane : Nat) (v : Int) : List Int :=
  if lane < occ.length then occ.set lane v else occ ++ [v]

/-- Scenario experiment `{start: 2024-01-03, end: 2024-01-10}`. -/
def expA : ExperimentItem := ⟨"exp-a", "A", "", ⟨2024, 1, 3⟩, ⟨2024, 1, 10⟩, "Running"⟩

/-- Scenario experiment `{start: 2024-01-05, end: 2024-01-08}`. -/
def expB : ExperimentItem := ⟨"exp-b", "B", "", ⟨2024, 1, 5⟩, ⟨2024, 1, 8⟩, "Running"⟩

/-- Scenario release on `2024-01-02`. -/
def rel1 : ReleaseItem := ⟨"rel-1", "R 1.0", "", ⟨2024, 1, 2⟩, "iOS", "Planned"⟩

/-! ### Helper lemmas -/

theorem isoLe_refl (a : IsoDate) : isoLe a a := by
  unfold isoLe; omega

theorem isoLe_total (a b : IsoDate) : isoLe a b ∨ isoLe b a := by
  unfold isoLe; omega

theorem findIndex_eq_some {α : Type _} (p : α → Bool) (d : α) :
    ∀ (l : List α) (i : Nat), findIndex p l = some i →
      i < l.length ∧ p (l.getD i d) = true ∧ ∀ j, j < i → p (l.getD j d) = false := by
  intro l
  induction l with
  | nil => intro i h; simp [findIndex] at h
  | cons a rest ih =>
    intro i h
    by_cases hpa : p a = true
    · simp [findIndex, hpa] at h
      subst h
      refine ⟨by simp, by simpa using hpa, fun j hj => by omega⟩
    · simp [findIndex, hpa] at h
      obtain ⟨i', hi', rfl⟩ := h
      obtain ⟨hlen, hget, hmin⟩ := ih i' hi'
      refine ⟨by simpa using hlen, by simpa using hget, ?_⟩
      intro j hj
      cases j with
      | zero => simpa using hpa
      | succ j' => simpa using hmin j' (by omega)

theorem findIndex_eq_none {α : Type _} (p : α → Bool) (d : α) :
    ∀ l : List α, findIndex p l = none → ∀ j, j < l.length → p (l.getD j d) = false := by
  intro l
  induction l with
  | nil => intro _ j hj; simp at hj
  | cons a rest ih =>
    intro h j hj
    by_cases hpa : p a = true
    · simp [findIndex, hpa] at h
    · simp [findIndex, hpa] at h
      cases j with
      | zero => simpa using hpa
      | succ j' => simpa using ih h j' (by simpa using hj)

theorem getD_set_self : ∀ (l : List Int) (i : Nat) (v : Int), i < l.length →
    (l.set i v).getD i 0 = v := by
  intro l
  induction l with
  | nil => intro i v h; simp at h
  | cons a rest ih =>
    intro i v h
    cases i with
    | zero => simp
    | succ i' => simpa using ih i' v (by simpa using h)

theorem getD_set_ne : ∀ (l : List Int) (i j : Nat) (v : Int), i ≠ j →
    (l.set i v).getD j 0 = l.getD j 0 := by
  intro l
  induction l with
  | nil => intro i j v _; simp
  | cons a rest ih =>
    intro i j v hij
    cases i with
    | zero =>
      cases j with
      | zero => omega
      | succ j' => simp
    | succ i' =>
      cases j with
      | zero => simp
      | succ j' => simpa using ih i' j' v (by omega)

theorem getD_append_last : ∀ (l : List Int) (v : Int), (l ++ [v]).getD l.length 0 = v := by
  intro l
  induction l with
  | nil => intro v; simp
  | cons a rest ih => intro v; simp [ih v]

/-! ### C8: compactReleaseLabel on the scenario label -/

/-- C8: `compactReleaseLabel("Growth Backend 2.3.1 rollout")` keeps the prefix
through the dotted version, drops the trailing suffix, and rewrites the word
"Backend" to "BE", giving `"Growth BE 2.3.1"`. -/
theorem compactReleaseLabel_growth :
    compactReleaseLabel "Growth Backend 2.3.1 rollout" = "Growth BE 2.3.1" := by
  decide

/-! ### C9: stageTone priority order -/

/-- C9: `stageTone` classifies by case-insensitive substring matching with the
running-keywords checked before the winner-keywords, which are checked before
the ended-keywords, with neutral as the fallback; a stage containing both
"running" and "ended" is running, and `stageTone("Winner - Ended")` is winner. -/
theorem stageTone_priority :
    (∀ s, (hasSub "running".data (lowerStr s) || hasSub "active".data (lowerStr s) ||
        hasSub "exploring".data (lowerStr s)) = true → stageTone s = StageTone.running)
    ∧ (∀ s, (hasSub "running".data (lowerStr s) || hasSub "active".data (lowerStr s) ||
        hasSub "exploring".data (lowerStr s)) = false →
        (hasSub "winner".data (lowerStr s) || hasSub "rollout".data (lowerStr s) ||
        hasSub "shipped".data (lowerStr s)) = true → stageTone s = StageTone.winner)
    ∧ (∀ s, (hasSub "running".data (lowerStr s) || hasSub "active".data (lowerStr s) ||
        hasSub "exploring".data (lowerStr s)) = false →
        (hasSub "winner".data (lowerStr s) || hasSub "rollout".data (lowerStr s) ||
        hasSub "shipped".data (lowerStr s)) = false →
        (hasSub "ended".data (lowerStr s) || hasSub "stop".data (lowerStr s) ||
        hasSub "backlog".data (lowerStr s)) = true → stageTone s = StageTone.ended)
    ∧ (∀ s, (hasSub "running".data (lowerStr s) || hasSub "active".data (lowerStr s) ||
        hasSub "exploring".data (lowerStr s)) = false →
        (hasSub "winner".data (lowerStr s) || hasSub "rollout".data (lowerStr s) ||
        hasSub "shipped".data (lowerStr s)) = false →
        (hasSub "ended".data (lowerStr s) || hasSub "stop".data (lowerStr s) ||
        hasSub "backlog".data (lowerStr s)) = false → stageTone s = StageTone.neutral)
    ∧ (∀ s, hasSub "running".data (lowerStr s) = true → hasSub "ended".data (lowerStr s) = true →
        stageTone s = StageTone.running)
    ∧ stageTone "Winner - Ended" = StageTone.winner := by
  refine ⟨?_, ?_, ?_, ?_, ?_, by decide⟩
  · intro s h; simp only [stageTone, h, if_true]
  · intro s h1 h2; simp only [stageTone, h1, h2]; simp
  · intro s h1 h2 h3; simp only [stageTone, h1, h2, h3]; simp
  · intro s h1 h2 h3; simp only [stageTone, h1, h2, h3]; simp
  · intro s h1 _; simp only [stageTone, h1]; simp

/-- Witness for C9 at concrete inputs. -/
theorem stageTone_priority_witness :
    stageTone "running and ended" = StageTone.running
    ∧ stageTone "Winner - Ended" = StageTone.winner :=
  ⟨stageTone_priority.2.2.2.2.1 "running and ended" (by decide) (by decide),
    stageTone_priority.2.2.2.2.2⟩

/-! ### C6 and C7: clampText -/

/-- Counterexample for C6 as stated: at `("abcd", 2)` the result is not the
first character followed by a single ellipsis (the appended literal is the
three-character mis-encoding), and at `maxChars = 0` the function does not
behave like `maxChars = max(1, 0) = 1` (JavaScript slices with end index
`-1`, keeping all but the last character). -/
theorem clampText_claim_cex :
    clampText "abcd" 2 ≠ "a…" ∧ clampText "abc" 0 ≠ clampText "abc" (max 1 0) := by
  refine ⟨by decide, by decide⟩

/-- C6, amended: `clampText` returns the text unchanged when it fits; when
`1 ≤ maxChars < length` it keeps the first `maxChars - 1` characters and
appends the literal `ellipsisLiteral` (the mis-encoded ellipsis, three
characters rather than one); for `maxChars < 1` it does not crash and, per
JavaScript slice semantics, keeps the first `max(length + maxChars - 1, 0)`
characters before appending the literal. -/
theorem clampText_amended (s : String) (m : Int) :
    ((s.length : Int) ≤ m → clampText s m = s)
    ∧ (1 ≤ m → m < (s.length : Int) →
        clampText s m = String.mk (s.data.take (m - 1).toNat ++ ellipsisLiteral))
    ∧ (m < 1 → ¬ ((s.length : Int) ≤ m) →
        clampText s m = String.mk (s.data.take ((s.length : Int) + m - 1).toNat ++ ellipsisLiteral)) := by
  refine ⟨?_, ?_, ?_⟩
  · intro h
    simp [clampText, h]
  · intro h1 h2
    have hlen : ¬ ((s.length : Int) ≤ m) := by omega
    simp only [clampText, hlen, if_false, jsSliceEnd]
    have he : ¬ (m - 1 < 0) := by omega
    simp only [he, if_false]
    have : min (m - 1) ((s.data.length : Int)) = m - 1 := by
      have : s.data.length = s.length := rfl
      omega
    rw [this]
  · intro h1 h2
    simp only [clampText, h2, if_false, jsSliceEnd]
    have he : m - 1 < 0 := by omega
    simp only [he, if_true]
    have : (max ((s.data.length : Int) + (m - 1)) 0).toNat = ((s.length : Int) + m - 1).toNat := by
      have : s.data.length = s.length := rfl
      omega
    rw [this]

/-- Witness for C6 (amended) at concrete inputs. -/
theorem clampText_amended_witness :
    clampText "abc" 5 = "abc"
    ∧ clampText "abcd" 2 = String.mk ("abcd".data.take ((2 : Int) - 1).toNat ++ ellipsisLiteral)
    ∧ clampText "abc" 0 = String.mk ("abc".data.take (((3 : Nat) : Int) + 0 - 1).toNat ++ ellipsisLiteral) :=
  ⟨(clampText_amended "abc" 5).1 (by decide),
    (clampText_amended "abcd" 2).2.1 (by decide) (by decide),
    (clampText_amended "abc" 0).2.2 (by decide) (by decide)⟩

/-- Counterexample for C7 as stated: idempotence fails at `maxChars = 0`
(because the appended literal is three characters long, re-clamping trims
into it). -/
theorem clampText_idem_cex :
    clampText (clampText "a" 0) 0 ≠ clampText "a" 0 := by
  decide

/-- C7, amended: `clampText` is idempotent for every `maxChars ≥ 1`. -/
theorem clampText_idem_ge_one (s : String) (m : Int) (hm : 1 ≤ m) :
    clampText (clampText s m) m = clampText s m := by
  by_cases h : (s.length : Int) ≤ m
  · simp [clampText, h]
  · have hdata : s.data.length = s.length := rfl
    have hr : clampText s m = String.mk (s.data.take (m - 1).toNat ++ ellipsisLiteral) :=
      (clampText_amended s m).2.1 hm (by omega)
    have htake : (s.data.take (m - 1).toNat).length = (m - 1).toNat := by
      rw [List.length_take]
      omega
    have hrlen : ((clampText s m).length : Int) = m + 2 := by
      rw [hr]
      show (((s.data.take (m - 1).toNat ++ ellipsisLiteral).length : Nat) : Int) = m + 2
      rw [List.length_append, htake]
      show (((m - 1).toNat + 3 : Nat) : Int) = m + 2
      omega
    have hfit : ¬ (((clampText s m).length : Int) ≤ m) := by omega
    have hstep := (clampText_amended (clampText s m) m).2.1 hm (by omega)
    rw [hstep, hr]
    congr 1
    show ((s.data.take (m - 1).toNat ++ ellipsisLiteral).take (m - 1).toNat ++ ellipsisLiteral) = _
    rw [List.take_append_of_le_length (by omega), List.take_take, min_self]

/-- Witness for C7 (amended) at a concrete input. -/
theorem clampText_idem_ge_one_witness :
    clampText (clampText "abcd" 2) 2 = clampText "abcd" 2 :=
  clampText_idem_ge_one "abcd" 2 (by decide)

/-! ### C2: totalDays -/

/-- Counterexample for C2 as stated: with a window start after every end date
(`windowStart = 2024-01-11`, `today = 2024-01-01`, no items), `totalDays` is
clamped to `1` while `diffDays(startDate, endDate) + 1 = -9`. -/
theorem totalDays_claim_cex :
    (layoutTimeline [] [] ⟨2024, 1, 11⟩ (utcDate ⟨2024, 1, 1⟩)).totalDays ≠
      diffDays (layoutTimeline [] [] ⟨2024, 1, 11⟩ (utcDate ⟨2024, 1, 1⟩)).startDate
        (layoutTimeline [] [] ⟨2024, 1, 11⟩ (utcDate ⟨2024, 1, 1⟩)).endDate + 1 := by
  decide

/-- C2, amended: `totalDays = max(1, diffDays(startDate, endDate) + 1)`, hence
always at least `1`; the claimed equality `totalDays = diffDays + 1` holds
exactly when the caller-supplied window start is not after the computed end
date. -/
theorem totalDays_amended (exps : List ExperimentItem) (rels : List ReleaseItem)
    (ws : IsoDate) (today : Int) :
    (layoutTimeline exps rels ws today).totalDays =
      max 1 (diffDays (layoutTimeline exps rels ws today).startDate
        (layoutTimeline exps rels ws today).endDate + 1)
    ∧ 1 ≤ (layoutTimeline exps rels ws today).totalDays
    ∧ ((layoutTimeline exps rels ws today).startDate ≤ (layoutTimeline exps rels ws today).endDate →
        (layoutTimeline exps rels ws today).totalDays =
          diffDays (layoutTimeline exps rels ws today).startDate
            (layoutTimeline exps rels ws today).endDate + 1) := by
  refine ⟨rfl, ?_, ?_⟩
  · show 1 ≤ max 1 _
    exact le_max_left _ _
  · intro h
    show max 1 (diffDays (layoutTimeline exps rels ws today).startDate
        (layoutTimeline exps rels ws today).endDate + 1) =
      diffDays (layoutTimeline exps rels ws today).startDate
        (layoutTimeline exps rels ws today).endDate + 1
    unfold diffDays
    omega

/-- Witness for C2 (amended) at a concrete input where the window start
precedes the end date. -/
theorem totalDays_amended_witness :
    (layoutTimeline [] [] ⟨2024, 1, 1⟩ (utcDate ⟨2024, 1, 5⟩)).totalDays =
      diffDays (layoutTimeline [] [] ⟨2024, 1, 1⟩ (utcDate ⟨2024, 1, 5⟩)).startDate
        (layoutTimeline [] [] ⟨2024, 1, 1⟩ (utcDate ⟨2024, 1, 5⟩)).endDate + 1 :=
  (totalDays_amended [] [] ⟨2024, 1, 1⟩ (utcDate ⟨2024, 1, 5⟩)).2.2 (by decide)

/-! ### C4: the overlapping-experiments scenario -/

/-- C4: with window start 2024-01-01 and the overlapping experiments A
(2024-01-03 to 2024-01-10) and B (2024-01-05 to 2024-01-08), in either input
order and for every evaluation instant, A gets row 0, B gets row 1, and
`experimentRows = 2`. -/
theorem overlap_scenario (today : Int) :
    ((layoutTimeline [expA, expB] [] ⟨2024, 1, 1⟩ today).positionedExperiments.map
        (fun p => (p.name, p.row)) = [("A", 0), ("B", 1)]
      ∧ (layoutTimeline [expA, expB] [] ⟨2024, 1, 1⟩ today).experimentRows = 2)
    ∧ ((layoutTimeline [expB, expA] [] ⟨2024, 1, 1⟩ today).positionedExperiments.map
        (fun p => (p.name, p.row)) = [("A", 0), ("B", 1)]
      ∧ (layoutTimeline [expB, expA] [] ⟨2024, 1, 1⟩ today).experimentRows = 2) :=
  ⟨⟨rfl, rfl⟩, ⟨rfl, rfl⟩⟩

/-- Witness for C4 at a concrete evaluation instant. -/
theorem overlap_scenario_witness :
    (layoutTimeline [expA, expB] [] ⟨2024, 1, 1⟩ (utcDate ⟨2024, 1, 7⟩)).positionedExperiments.map
      (fun p => (p.name, p.row)) = [("A", 0), ("B", 1)] :=
  (overlap_scenario (utcDate ⟨2024, 1, 7⟩)).1.1

/-! ### C1: experiments sharing a row never overlap or touch -/

theorem positionExperiments_start_le_end (sd : Int) :
    ∀ (l : List ExperimentItem) (ends : List Int),
      ∀ q ∈ (positionExperiments sd ends l).2, q.startIndex ≤ q.endIndex := by
  intro l
  induction l with
  | nil => intro ends q hq; simp [positionExperiments] at hq
  | cons item rest ih =>
    intro ends q hq
    cases hf : findIndex (fun rowEnd => expStartIndex sd item > rowEnd) ends with
    | some row =>
      simp only [positionExperiments, hf, List.mem_cons] at hq
      rcases hq with rfl | hq
      · exact le_max_left _ _
      · exact ih _ q hq
    | none =>
      simp only [positionExperiments, hf, List.mem_cons] at hq
      rcases hq with rfl | hq
      · exact le_max_left _ _
      · exact ih _ q hq

theorem positionExperiments_row_mono (sd : Int) :
    ∀ (l : List ExperimentItem) (ends : List Int),
      ∀ q ∈ (positionExperiments sd ends l).2,
        ∀ r : Nat, r < ends.length → q.row = r → ends.getD r 0 < q.startIndex := by
  intro l
  induction l with
  | nil => intro ends q hq; simp [positionExperiments] at hq
  | cons item rest ih =>
    intro ends q hq r hr hqr
    cases hf : findIndex (fun rowEnd => expStartIndex sd item > rowEnd) ends with
    | some row =>
      obtain ⟨hrowlen, hget, -⟩ := findIndex_eq_some _ (0 : Int) ends row hf
      have hgt : ends.getD row 0 < expStartIndex sd item := by
        simpa using of_decide_eq_true hget
      simp only [positionExperiments, hf, List.mem_cons] at hq
      rcases hq with rfl | hq
      · simp only at hqr
        subst hqr
        simpa using hgt
      · have hlt := ih (ends.set row (expEndIndex sd item)) q hq r
          (by simpa [List.length_set] using hr) hqr
        by_cases hrr : row = r
        · subst hrr
          rw [getD_set_self _ _ _ hrowlen] at hlt
          have hse : expStartIndex sd item ≤ expEndIndex sd item := le_max_left _ _
          omega
        · rwa [getD_set_ne _ _ _ _ hrr] at hlt
    | none =>
      simp only [positionExperiments, hf, List.mem_cons] at hq
      rcases hq with rfl | hq
      · simp only at hqr
        omega
      · have hlt := ih (ends ++ [expEndIndex sd item]) q hq r
          (by simp [List.length_append]; omega) hqr
        rwa [List.getD_append _ _ _ _ hr] at hlt

theorem positionExperiments_pairwise (sd : Int) :
    ∀ (l : List ExperimentItem) (ends : List Int),
      (positionExperiments sd ends l).2.Pairwise
        (fun p q => p.row = q.row → p.endIndex < q.startIndex) := by
  intro l
  induction l with
  | nil => intro ends; simp [positionExperiments]
  | cons item rest ih =>
    intro ends
    cases hf : findIndex (fun rowEnd => expStartIndex sd item > rowEnd) ends with
    | some row =>
      obtain ⟨hrowlen, -, -⟩ := findIndex_eq_some _ (0 : Int) ends row hf
      simp only [positionExperiments, hf]
      refine List.pairwise_cons.mpr ⟨?_, ih _⟩
      intro q hq hrow
      simp only at hrow
      have hlt := positionExperiments_row_mono sd rest (ends.set row (expEndIndex sd item)) q hq
        row (by simpa [List.length_set] using hrowlen) hrow.symm
      rw [getD_set_self _ _ _ hrowlen] at hlt
      simpa using hlt
    | none =>
      simp only [positionExperiments, hf]
      refine List.pairwise_cons.mpr ⟨?_, ih _⟩
      intro q hq hrow
      simp only at hrow
      have hlt := positionExperiments_row_mono sd rest (ends ++ [expEndIndex sd item]) q hq
        ends.length (by simp) hrow.symm
      rw [getD_append_last] at hlt
      simpa using hlt

/-- C1: in the layout produced by `layoutTimeline`, any two positioned
experiments in the same row are strictly separated (the later one starts
strictly after the earlier one ends), and in particular two experiments whose
inclusive ranges merely touch are in different rows. -/
theorem rows_disjoint (exps : List ExperimentItem) (rels : List ReleaseItem)
    (ws : IsoDate) (today : Int) :
    ((layoutTimeline exps rels ws today).positionedExperiments).Pairwise
      (fun p q => (p.row = q.row → p.endIndex < q.startIndex)
        ∧ ((p.endIndex = q.startIndex ∨ q.endIndex = p.startIndex) → p.row ≠ q.row)) := by
  have hout : (layoutTimeline exps rels ws today).positionedExperiments =
      (positionExperiments (utcDate ws) [] (List.insertionSort expLe exps)).2 := rfl
  rw [hout]
  have hmain := positionExperiments_pairwise (utcDate ws) (List.insertionSort expLe exps) []
  refine hmain.imp_of_mem ?_
  intro p q hp hq hR
  have hps := positionExperiments_start_le_end (utcDate ws) (List.insertionSort expLe exps) [] p hp
  have hqs := positionExperiments_start_le_end (utcDate ws) (List.insertionSort expLe exps) [] q hq
  refine ⟨hR, ?_⟩
  intro htouch hrow
  have := hR hrow
  rcases htouch with h1 | h2 <;> omega

/-- Witness for C1 at a concrete input. -/
theorem rows_disjoint_witness :
    ((layoutTimeline [expA, expB] [] ⟨2024, 1, 1⟩ (utcDate ⟨2024, 1, 7⟩)).positionedExperiments).Pairwise
      (fun p q => (p.row = q.row → p.endIndex < q.startIndex)
        ∧ ((p.endIndex = q.startIndex ∨ q.endIndex = p.startIndex) → p.row ≠ q.row)) :=
  rows_disjoint [expA, expB] [] ⟨2024, 1, 1⟩ (utcDate ⟨2024, 1, 7⟩)

/-! ### C5: canvas width -/

theorem foldl_max_init_le : ∀ (l : List Int) (m : Int), m ≤ l.foldl max m := by
  intro l
  induction l with
  | nil => intro m; exact le_refl m
  | cons a rest ih =>
    intro m
    calc m ≤ max m a := le_max_left _ _
    _ ≤ rest.foldl max (max m a) := ih (max m a)

theorem foldl_max_mem_le : ∀ (l : List Int) (m v : Int), v ∈ l → v ≤ l.foldl max m := by
  intro l
  induction l with
  | nil => intro m v hv; simp at hv
  | cons a rest ih =>
    intro m v hv
    rcases List.mem_cons.mp hv with rfl | hv
    · calc v ≤ max m v := le_max_right _ _
      _ ≤ rest.foldl max (max m v) := foldl_max_init_le rest (max m v)
    · exact ih (max m a) v hv

theorem positionReleases_maxEnd (sd : Int) :
    ∀ (l : List ReleaseItem) (occ : List Int) (m : Int),
      (positionReleases sd occ m l).2.1 =
        ((positionReleases sd occ m l).2.2.map (fun r => r.labelEnd + 20)).foldl max m := by
  intro l
  induction l with
  | nil => intro occ m; simp [positionReleases]
  | cons item rest ih =>
    intro occ m
    cases hf : findIndex (fun occupiedUntil => relAnchorX sd item > occupiedUntil + 12) occ with
    | some lane => simp only [positionReleases, hf, List.map_cons, List.foldl_cons]; exact ih _ _
    | none => simp only [positionReleases, hf, List.map_cons, List.foldl_cons]; exact ih _ _

/-- C5: `canvasWidth` is exactly the running maximum of `labelEnd + 20` over
all positioned releases, seeded with `totalDays * DAY_WIDTH`; consequently it
is at least `totalDays * DAY_WIDTH`, and every positioned release's label
(plus the 20px margin) fits inside it. -/
theorem canvasWidth_spec (exps : List ExperimentItem) (rels : List ReleaseItem)
    (ws : IsoDate) (today : Int) :
    (layoutTimeline exps rels ws today).canvasWidth =
      ((layoutTimeline exps rels ws today).positionedReleases.map (fun r => r.labelEnd + 20)).foldl
        max ((layoutTimeline exps rels ws today).totalDays * (DAY_WIDTH : Int))
    ∧ (layoutTimeline exps rels ws today).totalDays * (DAY_WIDTH : Int) ≤
        (layoutTimeline exps rels ws today).canvasWidth
    ∧ ∀ r ∈ (layoutTimeline exps rels ws today).positionedReleases,
        r.labelEnd + 20 ≤ (layoutTimeline exps rels ws today).canvasWidth := by
  have hrel : (layoutTimeline exps rels ws today).positionedReleases =
      (positionReleases (utcDate ws) []
        ((layoutTimeline exps rels ws today).totalDays * (DAY_WIDTH : Int))
        (List.insertionSort relLe rels)).2.2 := rfl
  have hcv : (layoutTimeline exps rels ws today).canvasWidth =
      max ((layoutTimeline exps rels ws today).totalDays * (DAY_WIDTH : Int))
        (positionReleases (utcDate ws) []
          ((layoutTimeline exps rels ws today).totalDays * (DAY_WIDTH : Int))
          (List.insertionSort relLe rels)).2.1 := rfl
  have hmax := positionReleases_maxEnd (utcDate ws) (List.insertionSort relLe rels) []
    ((layoutTimeline exps rels ws today).totalDays * (DAY_WIDTH : Int))
  have heq : (layoutTimeline exps rels ws today).canvasWidth =
      ((layoutTimeline exps rels ws today).positionedReleases.map (fun r => r.labelEnd + 20)).foldl
        max ((layoutTimeline exps rels ws today).totalDays * (DAY_WIDTH : Int)) := by
    rw [hcv, hmax, hrel]
    exact max_eq_right (foldl_max_init_le _ _)
  refine ⟨heq, ?_, ?_⟩
  · rw [heq]
    exact foldl_max_init_le _ _
  · intro r hr
    rw [heq]
    exact foldl_max_mem_le _ _ _ (List.mem_map_of_mem _ hr)

/-- Witness for C5 at a concrete input with one release. -/
theorem canvasWidth_spec_witness :
    ((⟨rel1, 0, 1, 143⟩ : PositionedRelease).labelEnd + 20 ≤
      (layoutTimeline [] [rel1] ⟨2024, 1, 1⟩ (utcDate ⟨2024, 1, 1⟩)).canvasWidth) :=
  (canvasWidth_spec [] [rel1] ⟨2024, 1, 1⟩ (utcDate ⟨2024, 1, 1⟩)).2.2
    ⟨rel1, 0, 1, 143⟩ (by decide)

/-! ### C3: release lane assignment, step by step -/

theorem labelWidth_clamp_comm (n : Int) : max 92 (min 240 n) = min 240 (max 92 n) := by
  omega

/-- C3: each release processed by the lane loop is assigned the first lane
whose occupied-until coordinate `o` satisfies `x > o + 12` (or a fresh lane at
the next index); with `labelWidth = min(240, max(92, length*7 + 44))`, its
`labelEnd` is `x + labelWidth`, the chosen lane's occupied-until marker
becomes `x + labelWidth`, and the rest of the list is processed from that
updated state. -/
theorem release_lane_step (sd : Int) (occ : List Int) (m : Int) (item : ReleaseItem)
    (rest : List ReleaseItem) (dayIndex x w : Int)
    (hd : dayIndex = max 0 (diffDays sd (utcDate item.date)))
    (hx : x = dayIndex * (DAY_WIDTH : Int) + ((DAY_WIDTH / 2 : Nat) : Int))
    (hw : w = min 240 (max 92 (((compactReleaseLabel item.name).length : Int) * 7 + 44))) :
    ∃ lane : Nat,
      FirstFreeLane x occ lane
      ∧ (positionReleases sd occ m (item :: rest)).2.2 =
          ⟨item, lane, dayIndex, x + w⟩ ::
            (positionReleases sd (updateLane occ lane (x + w)) (max m (x + w + 20)) rest).2.2
      ∧ (updateLane occ lane (x + w)).getD lane 0 = x + w := by
  have hd' : dayIndex = relDayIndex sd item := hd
  have hx' : x = relAnchorX sd item := by rw [hx, hd']; rfl
  have hw' : w = relLabelWidth item := by
    rw [hw, relLabelWidth, labelWidthOf, labelWidth_clamp_comm]
  cases hf : findIndex (fun occupiedUntil => relAnchorX sd item > occupiedUntil + 12) occ with
  | some lane =>
    obtain ⟨hlen, hget, hmin⟩ := findIndex_eq_some _ (0 : Int) occ lane hf
    have hupd : updateLane occ lane (x + w) = occ.set lane (x + w) := by
      rw [updateLane, if_pos hlen]
    refine ⟨lane, Or.inl ⟨hlen, ?_, ?_⟩, ?_, ?_⟩
    · have := of_decide_eq_true hget
      omega
    · intro j hj
      have := of_decide_eq_false (hmin j hj)
      omega
    · rw [hupd]
      simp only [positionReleases, hf]
      rw [hd', hx', hw']
    · rw [hupd]
      exact getD_set_self _ _ _ hlen
  | none =>
    have hnone := findIndex_eq_none _ (0 : Int) occ hf
    have hupd : updateLane occ (occ.length) (x + w) = occ ++ [x + w] := by
      rw [updateLane, if_neg (lt_irrefl _)]
    refine ⟨occ.length, Or.inr ⟨rfl, ?_⟩, ?_, ?_⟩
    · intro j hj
      have := of_decide_eq_false (hnone j hj)
      omega
    · rw [hupd]
      simp only [positionReleases, hf]
      rw [hd', hx', hw']
    · rw [hupd]
      exact getD_append_last _ _

/-- Witness for C3 at a concrete step: release `rel1` placed from the empty
lane state. -/
theorem release_lane_step_witness :
    ∃ lane : Nat,
      FirstFreeLane 51 [] lane
      ∧ (positionReleases 19723 [] 0 [rel1]).2.2 =
          ⟨rel1, lane, 1, 51 + 92⟩ ::
            (positionReleases 19723 (updateLane [] lane (51 + 92)) (max 0 (51 + 92 + 20)) []).2.2
      ∧ (updateLane [] lane (51 + 92)).getD lane 0 = 51 + 92 :=
  release_lane_step 19723 [] 0 rel1 [] 1 51 92 (by decide) (by decide) (by decide)

/-! ### C10: output order is sorted, stable, and input-determined -/

theorem filter_orderedInsert_key {α : Type _} (r : α → α → Prop) [DecidableRel r]
    (key : α → IsoDate) (hr : ∀ a b, r a b ↔ isoLe (key a) (key b)) (b : α) (k : IsoDate) :
    ∀ l : List α, (List.orderedInsert r b l).filter (fun a => key a = k) =
      if key b = k then b :: l.filter (fun a => key a = k)
      else l.filter (fun a => key a = k) := by
  intro l
  induction l with
  | nil => by_cases hbk : key b = k <;> simp [List.orderedInsert, hbk]
  | cons c l ih =>
    by_cases hbc : r b c
    · rw [List.orderedInsert, if_pos hbc]
      by_cases hbk : key b = k <;> simp [List.filter_cons, hbk]
    · have hck : key c ≠ key b := by
        intro he
        exact hbc ((hr b c).mpr (he ▸ isoLe_refl (key b)))
      rw [List.orderedInsert, if_neg hbc]
      rw [List.filter_cons, List.filter_cons]
      by_cases hbk : key b = k
      · have hckk : ¬ (key c = k) := fun h => hck (h.trans hbk.symm)
        simp [hckk, ih, hbk]
      · simp [ih, hbk]

theorem filter_insertionSort_key {α : Type _} (r : α → α → Prop) [DecidableRel r]
    (key : α → IsoDate) (hr : ∀ a b, r a b ↔ isoLe (key a) (key b)) (k : IsoDate) :
    ∀ l : List α, (List.insertionSort r l).filter (fun a => key a = k) =
      l.filter (fun a => key a = k) := by
  intro l
  induction l with
  | nil => rfl
  | cons b l ih =>
    rw [List.insertionSort, filter_orderedInsert_key r key hr b k]
    by_cases hbk : key b = k <;> simp [List.filter_cons, hbk, ih]

theorem positionExperiments_map_forget (sd : Int) :
    ∀ (l : List ExperimentItem) (ends : List Int),
      (positionExperiments sd ends l).2.map (fun p => p.toExperimentItem) = l := by
  intro l
  induction l with
  | nil => intro ends; simp [positionExperiments]
  | cons item rest ih =>
    intro ends
    cases hf : findIndex (fun rowEnd => expStartIndex sd item > rowEnd) ends with
    | some row => simp only [positionReleases, positionExperiments, hf, List.map_cons, ih]
    | none => simp only [positionReleases, positionExperiments, hf, List.map_cons, ih]

theorem positionReleases_map_forget (sd : Int) :
    ∀ (l : List ReleaseItem) (occ : List Int) (m : Int),
      (positionReleases sd occ m l).2.2.map (fun p => p.toReleaseItem) = l := by
  intro l
  induction l with
  | nil => intro occ m; simp [positionReleases]
  | cons item rest ih =>
    intro occ m
    cases hf : findIndex (fun occupiedUntil => relAnchorX sd item > occupiedUntil + 12) occ with
    | some lane => simp only [positionReleases, hf, List.map_cons, ih]
    | none => simp only [positionReleases, hf, List.map_cons, ih]

/-- C10: the positioned experiments (and releases) come out of `layoutTimeline`
in ascending raw-date order, produced by a stable sort of the input list: the
underlying records are exactly `insertionSort` of the inputs (so the order is
a function of the input lists alone, independent of the evaluation instant),
consecutive outputs are ordered by their date keys, and for every key the
records with that key appear in their original input order. -/
theorem layout_order_stable (exps : List ExperimentItem) (rels : List ReleaseItem)
    (ws : IsoDate) (today : Int) :
    ((layoutTimeline exps rels ws today).positionedExperiments.map (fun p => p.toExperimentItem) =
        List.insertionSort expLe exps)
    ∧ (layoutTimeline exps rels ws today).positionedExperiments.Pairwise
        (fun p q => isoLe p.startDate q.startDate)
    ∧ (∀ k : IsoDate,
        ((layoutTimeline exps rels ws today).positionedExperiments.filter
            (fun p => p.startDate = k)).map (fun p => p.toExperimentItem) =
          exps.filter (fun e => e.startDate = k))
    ∧ ((layoutTimeline exps rels ws today).positionedReleases.map (fun p => p.toReleaseItem) =
        List.insertionSort relLe rels)
    ∧ (layoutTimeline exps rels ws today).positionedReleases.Pairwise
        (fun p q => isoLe p.date q.date)
    ∧ (∀ k : IsoDate,
        ((layoutTimeline exps rels ws today).positionedReleases.filter
            (fun p => p.date = k)).map (fun p => p.toReleaseItem) =
          rels.filter (fun e => e.date = k)) := by
  have houtE : (layoutTimeline exps rels ws today).positionedExperiments =
      (positionExperiments (utcDate ws) [] (List.insertionSort expLe exps)).2 := rfl
  have houtR : (layoutTimeline exps rels ws today).positionedReleases =
      (positionReleases (utcDate ws) []
        ((layoutTimeline exps rels ws today).totalDays * (DAY_WIDTH : Int))
        (List.insertionSort relLe rels)).2.2 := rfl
  have hmapE : (layoutTimeline exps rels ws today).positionedExperiments.map
      (fun p => p.toExperimentItem) = List.insertionSort expLe exps := by
    rw [houtE]; exact positionExperiments_map_forget _ _ _
  have hmapR : (layoutTimeline exps rels ws today).positionedReleases.map
      (fun p => p.toReleaseItem) = List.insertionSort relLe rels := by
    rw [houtR]; exact positionReleases_map_forget _ _ _ _
  refine ⟨hmapE, ?_, ?_, hmapR, ?_, ?_⟩
  · have hs : List.Pairwise expLe
        ((layoutTimeline exps rels ws today).positionedExperiments.map
          (fun p => p.toExperimentItem)) := by
      rw [hmapE]; exact List.sorted_insertionSort expLe exps
    exact (List.pairwise_map (f := fun p : PositionedExperiment => p.toExperimentItem)).mp hs
  · intro k
    have hcomm := List.filter_map (p := fun e => decide (e.startDate = k))
      (fun p : PositionedExperiment => p.toExperimentItem)
      (layoutTimeline exps rels ws today).positionedExperiments
    rw [hmapE] at hcomm
    rw [← filter_insertionSort_key expLe (fun e => e.startDate) (fun a b => Iff.rfl) k exps]
    exact hcomm.symm
  · have hs : List.Pairwise relLe
        ((layoutTimeline exps rels ws today).positionedReleases.map
          (fun p => p.toReleaseItem)) := by
      rw [hmapR]; exact List.sorted_insertionSort relLe rels
    exact (List.pairwise_map (f := fun p : PositionedRelease => p.toReleaseItem)).mp hs
  · intro k
    have hcomm := List.filter_map (p := fun e => decide (e.date = k))
      (fun p : PositionedRelease => p.toReleaseItem)
      (layoutTimeline exps rels ws today).positionedReleases
    rw [hmapR] at hcomm
    rw [← filter_insertionSort_key relLe (fun e => e.date) (fun a b => Iff.rfl) k rels]
    exact hcomm.symm

/-- Witness for C10 at a concrete input. -/
theorem layout_order_stable_witness :
    ((layoutTimeline [expB, expA] [rel1] ⟨2024, 1, 1⟩ (utcDate ⟨2024, 1, 7⟩)).positionedExperiments.map
        (fun p => p.toExperimentItem) = List.insertionSort expLe [expB, expA])
    ∧ (layoutTimeline [expB, expA] [rel1] ⟨2024, 1, 1⟩ (utcDate ⟨2024, 1, 7⟩)).positionedExperiments.Pairwise
        (fun p q => isoLe p.startDate q.startDate)
    ∧ (∀ k : IsoDate,
        ((layoutTimeline [expB, expA] [rel1] ⟨2024, 1, 1⟩ (utcDate ⟨2024, 1, 7⟩)).positionedExperiments.filter
            (fun p => p.startDate = k)).map (fun p => p.toExperimentItem) =
          [expB, expA].filter (fun e => e.startDate = k))
    ∧ ((layoutTimeline [expB, expA] [rel1] ⟨2024, 1, 1⟩ (utcDate ⟨2024, 1, 7⟩)).positionedReleases.map
        (fun p => p.toReleaseItem) = List.insertionSort relLe [rel1])
    ∧ (layoutTimeline [expB, expA] [rel1] ⟨2024, 1, 1⟩ (utcDate ⟨2024, 1, 7⟩)).positionedReleases.Pairwise
        (fun p q => isoLe p.date q.date)
    ∧ (∀ k : IsoDate,
        ((layoutTimeline [expB, expA] [rel1] ⟨2024, 1, 1⟩ (utcDate ⟨2024, 1, 7⟩)).positionedReleases.filter
            (fun p => p.date = k)).map (fun p => p.toReleaseItem) =
          [rel1].filter (fun e => e.date = k)) :=
  layout_order_stable [expB, expA] [rel1] ⟨2024, 1, 1⟩ (utcDate ⟨2024, 1, 7⟩)
